import Mathlib

/-!
Shallow embedding of the timings core of `Ciantic/project-timings`
(crate `timings`: `timings_recorder.rs`, `totals_cache.rs`, and the
upsert semantics of `repository/timings_mutations.rs::insert_timings`).

Modelling conventions:

* Instants (`chrono::DateTime<Utc>`) and durations (`chrono::Duration`)
  are modelled as integers at whole-second granularity, so
  `Duration::num_seconds()` is the identity and the keep-alive test
  `(now - last).num_seconds() > 60` becomes `60 < now - last`.
* Local calendar days (`chrono::NaiveDate`) are modelled as integers
  (day numbers), with the epoch chosen so that day `d` is a Monday
  exactly when `d % 7 = 0`; `weekday().num_days_from_monday()` is then
  `Int.emod d 7`.  `NaiveDate` arithmetic (`- Duration::days(n)`,
  `- Duration::weeks(8)`) becomes integer subtraction (`8` weeks = `56`
  days).  The conversion from an instant to its local calendar day
  (`with_timezone(&chrono::Local).date_naive()`) is an explicit
  parameter `localDay : Int → Int`; note that chrono's local-time
  conversion never changes the instant itself, so a difference of two
  converted instants (`local_end - local_start`) is `end - start`.
* `HashMap`s are modelled as association lists with unique keys kept by
  construction (updates replace the first matching entry).
* Fallible persistence calls return `Except String`; the persistence
  collaborator (the two traits of `api.rs`) is a record of functions.
* The `running_changed` boxed callback is modelled by a flag saying
  whether a callback is registered, together with the list of boolean
  arguments the callback is invoked with during an operation.
* The `summary_cache` and the `get_summary` family do not interact with
  any recording or totals state and are not part of this development.
-/

/-- `Timing` of `api.rs`: a finalized work interval. -/
structure Timing where
  start : Int
  «end» : Int
  project : String
  client : String
deriving DecidableEq, Repr

/-- `let duration = timing.end - timing.start` of `add_timing`. -/
def Timing.duration (t : Timing) : Int := t.«end» - t.start

/-- `CurrentTiming` of `timings_recorder.rs`: the open session. -/
structure CurrentTiming where
  start : Int
  project : String
  client : String
deriving DecidableEq, Repr

/-- `Totals` of `totals_cache.rs`. -/
structure Totals where
  today : Int
  this_week : Int
  last_week : Int
  eight_weeks : Int
deriving DecidableEq, Repr

/-- `DailyTotals` of `totals_cache.rs`: `HashMap<NaiveDate, Duration>`,
as an association list from day number to accumulated duration. -/
abbrev DailyTotals := List (Int × Int)

/-- `HashMap::get`. -/
def DailyTotals.get? : DailyTotals → Int → Option Int
  | [], _ => none
  | (k, v) :: rest, d => if k = d then some v else DailyTotals.get? rest d

/-- `self.get(&date).copied().unwrap_or_else(Duration::zero)`. -/
def DailyTotals.getD (m : DailyTotals) (d : Int) : Int := (m.get? d).getD 0

/-- `self.0.entry(date).or_insert_with(Duration::zero); *entry = *entry + duration`
of `DailyTotals::insert_timing`. -/
def DailyTotals.addToDay : DailyTotals → Int → Int → DailyTotals
  | [], d, delta => [(d, 0 + delta)]
  | (k, v) :: rest, d, delta =>
      if k = d then (k, v + delta) :: rest
      else (k, v) :: DailyTotals.addToDay rest d delta

/-- `DailyTotals::insert_timing`: the whole duration `end - start` is
accumulated into the bucket of the local calendar day of `start`. -/
def DailyTotals.insert_timing (m : DailyTotals) (localDay : Int → Int)
    (start «end» : Int) : DailyTotals :=
  m.addToDay (localDay start) («end» - start)

/-- `HashMap::insert` (replace-or-append), used when building the map in
`DailyTotals::from_database`. -/
def DailyTotals.setDay : DailyTotals → Int → Int → DailyTotals
  | [], d, v => [(d, v)]
  | (k, w) :: rest, d, v =>
      if k = d then (d, v) :: rest
      else (k, w) :: DailyTotals.setDay rest d v

/-- The map-building loop of `DailyTotals::from_database`: each returned
per-day aggregate row `(day, duration)` is inserted into a fresh map.
(The source converts the row's fractional `hours` to a `Duration`; rows
here already carry that duration.) -/
def DailyTotals.from_rows (rows : List (Int × Int)) : DailyTotals :=
  rows.foldl (fun m p => m.setDay p.1 p.2) []

/-- Sum of all bucket values of a `DailyTotals`. -/
def DailyTotals.sumAll (m : DailyTotals) : Int := (m.map Prod.snd).sum

/-- One `while current_date <= hi` summation loop of `to_totals`,
running for `n` days starting at day `lo`; an absent bucket adds
nothing (`if let Some(duration) = self.get(&current_date)`). -/
def DailyTotals.sumDaysAux (m : DailyTotals) : Int → Nat → Int
  | _, 0 => 0
  | lo, n + 1 => m.getD lo + DailyTotals.sumDaysAux m (lo + 1) n

/-- Summation loop of `to_totals` from day `lo` while `current_date <= hi`. -/
def DailyTotals.sumDays (m : DailyTotals) (lo hi : Int) : Int :=
  m.sumDaysAux lo (hi + 1 - lo).toNat

/-- `DailyTotals::to_totals`.  `today` is the local date of `now`;
weeks start on Monday (`num_days_from_monday` is `emod 7` under the
Monday-epoch convention); `Duration::weeks(8)` is 56 days. -/
def DailyTotals.to_totals (m : DailyTotals) (localDay : Int → Int)
    (now : Int) : Totals :=
  let today := localDay now
  let day := (m.get? today).getD 0
  let days_from_monday := today.emod 7
  let this_week_start := today - days_from_monday
  let last_week_start := this_week_start - 7
  let last_week_end := this_week_start - 1
  let eight_weeks_start := today - 56
  { today := day
    this_week := m.sumDays this_week_start today
    last_week := m.sumDays last_week_start last_week_end
    eight_weeks := m.sumDays eight_weeks_start today }

/-- `Totals::with_current_timing`: extend a snapshot by the live
elapsed duration `now - start` (into `today`, `this_week` and
`eight_weeks`; `last_week` untouched). -/
def Totals.with_current_timing (t : Totals) (start now : Int) : Totals :=
  let duration := now - start
  { today := t.today + duration
    this_week := t.this_week + duration
    last_week := t.last_week
    eight_weeks := t.eight_weeks + duration }

/-- `TotalsCache` of `totals_cache.rs`:
`HashMap<(String, String), DailyTotals>` as an association list. -/
abbrev TotalsCache := List ((String × String) × DailyTotals)

/-- `HashMap::get` on the cache. -/
def TotalsCache.find? : TotalsCache → String → String → Option DailyTotals
  | [], _, _ => none
  | (k, dt) :: rest, c, p =>
      if k = (c, p) then some dt else TotalsCache.find? rest c p

/-- `TotalsCache::has_cached_totals` (`contains_key`). -/
def TotalsCache.has_cached_totals (tc : TotalsCache) (client project : String) : Bool :=
  (tc.find? client project).isSome

/-- `TotalsCache::add_timing`: update an existing entry only; a cold
pair is a no-op. -/
def TotalsCache.add_timing : TotalsCache → (Int → Int) → Timing → TotalsCache
  | [], _, _ => []
  | (k, dt) :: rest, localDay, t =>
      if k = (t.client, t.project) then
        (k, dt.insert_timing localDay t.start t.«end») :: rest
      else (k, dt) :: TotalsCache.add_timing rest localDay t

/-- `HashMap::insert` on the cache (replace-or-append), used after a
cold fill. -/
def TotalsCache.insert_entry : TotalsCache → String → String → DailyTotals → TotalsCache
  | [], c, p, dt => [((c, p), dt)]
  | (k, old) :: rest, c, p, dt =>
      if k = (c, p) then ((c, p), dt) :: rest
      else (k, old) :: TotalsCache.insert_entry rest c p dt

/-- Rust `str::trim`: strip leading and trailing whitespace.  (Defined
here over the character list so that it is computable by the kernel;
the whitespace test is `Char.isWhitespace`.) -/
def strTrim (s : String) : String :=
  ⟨(((s.data.dropWhile Char.isWhitespace).reverse).dropWhile Char.isWhitespace).reverse⟩

/-- The persistence collaborator as used by the recorder: the
`insert_timings` mutation and — with the argument shape of the call in
`DailyTotals::from_database` — the per-day aggregate query
(`client, project, from, to`), returning `(day, duration)` rows. -/
structure Conn where
  insert_timings : List Timing → Except String Unit
  get_timings_daily_totals : String → String → Int → Int → Except String (List (Int × Int))

/-- `Duration::weeks(n)` in seconds. -/
def weeksSecs (n : Int) : Int := n * 7 * 86400

/-- `TotalsCache::get_totals`: cached entry if available, otherwise
cold-fill from the persistence collaborator over
`[now - Duration::weeks(8), now]` and cache the result; finally extend
by the current timing if one was passed. -/
def TotalsCache.get_totals (tc : TotalsCache) (localDay : Int → Int)
    (client project : String) (now : Int) (conn : Conn)
    (current_timing_start : Option Int) :
    Except String (Totals × TotalsCache) :=
  let withCur : Totals → Totals := fun totals =>
    match current_timing_start with
    | some start => totals.with_current_timing start now
    | none => totals
  match tc.find? client project with
  | some dt => .ok (withCur (dt.to_totals localDay now), tc)
  | none =>
      match conn.get_timings_daily_totals client project (now - weeksSecs 8) now with
      | .error e => .error e
      | .ok rows =>
          let dt := DailyTotals.from_rows rows
          .ok (withCur (dt.to_totals localDay now),
               tc.insert_entry client project dt)

/-- `TimingsRecorder` state.  `has_running_changed` records whether a
`running_changed` callback is registered; the `summary_cache` is
omitted (no recording/totals operation reads or writes it). -/
structure TimingsRecorder where
  unwritten_timings : List Timing
  current_timing : Option CurrentTiming
  last_keep_alive : Option Int
  minimum_timing : Int
  totals_cache : TotalsCache
  has_running_changed : Bool
deriving DecidableEq, Repr

/-- `TimingsRecorder::new`: the configured minimum duration is clamped
to be non-negative. -/
def TimingsRecorder.new (minimum_timing : Int) : TimingsRecorder :=
  { unwritten_timings := []
    current_timing := none
    last_keep_alive := none
    minimum_timing := if minimum_timing < 0 then 0 else minimum_timing
    totals_cache := []
    has_running_changed := false }

/-- `TimingsRecorder::set_running_changed_callback`. -/
def TimingsRecorder.set_running_changed_callback (s : TimingsRecorder) : TimingsRecorder :=
  { s with has_running_changed := true }

/-- `TimingsRecorder::add_timing`: drop a timing shorter than
`minimum_timing`; otherwise add it to the cache and the unwritten
buffer when its duration is positive, and drop it (logged) when it is
zero or negative. -/
def TimingsRecorder.add_timing (s : TimingsRecorder) (localDay : Int → Int)
    (t : Timing) : TimingsRecorder :=
  let duration := t.«end» - t.start
  if duration < s.minimum_timing then s
  else if 0 < duration then
    { s with totals_cache := s.totals_cache.add_timing localDay t
             unwritten_timings := s.unwritten_timings ++ [t] }
  else s

/-- `TimingsRecorder::finalize_current_timing`: `take()` the current
timing (if any) and feed it, ended at `now`, to `add_timing`. -/
def TimingsRecorder.finalize_current_timing (s : TimingsRecorder)
    (localDay : Int → Int) (now : Int) : TimingsRecorder :=
  match s.current_timing with
  | none => s
  | some current =>
      TimingsRecorder.add_timing { s with current_timing := none } localDay
        { start := current.start, «end» := now
          project := current.project, client := current.client }

/-- `keep_alive_timing`: if a session is open, a last keep-alive is
recorded and more than 60 (whole) seconds have elapsed since it, the
open session is split: an interval from the session start to the last
keep-alive instant goes through `add_timing` and the session restarts
at `now`.  The last keep-alive is always set to `now`. -/
def TimingsRecorder.keep_alive_timing (s : TimingsRecorder)
    (localDay : Int → Int) (now : Int) : TimingsRecorder :=
  let s1 :=
    match s.current_timing, s.last_keep_alive with
    | some current, some last =>
        if 60 < now - last then
          TimingsRecorder.add_timing
            { s with current_timing := some { current with start := now } }
            localDay
            { start := current.start, «end» := last
              project := current.project, client := current.client }
        else s
    | _, _ => s
  { s1 with last_keep_alive := some now }

/-- `stop_timing`: implicit keep-alive, finalize, then invoke the
callback with `false` (unconditionally).  The second component lists
the `running_changed` invocations. -/
def TimingsRecorder.stop_timing (s : TimingsRecorder) (localDay : Int → Int)
    (now : Int) : TimingsRecorder × List Bool :=
  let s1 := s.keep_alive_timing localDay now
  let s2 := s1.finalize_current_timing localDay now
  (s2, if s.has_running_changed then [false] else [])

/-- `start_timing`: implicit keep-alive; empty (trimmed) client or
project stops the current timing and returns `false`; an identical
(client, project) pair returns `false`; otherwise finalize the current
session and start a new one at `now`, invoking the callback with
`true`.  Returns (started?, new state, `running_changed` invocations). -/
def TimingsRecorder.start_timing (s : TimingsRecorder) (localDay : Int → Int)
    (client project : String) (now : Int) : Bool × TimingsRecorder × List Bool :=
  let client := strTrim client
  let project := strTrim project
  let s1 := s.keep_alive_timing localDay now
  if client = "" ∨ project = "" then
    let (s2, ev) := s1.stop_timing localDay now
    (false, s2, ev)
  else
    let same :=
      match s1.current_timing with
      | some current => current.client = client && current.project = project
      | none => false
    if same then (false, s1, [])
    else
      let s2 := s1.finalize_current_timing localDay now
      let ct : CurrentTiming := { start := now, project := project, client := client }
      let s3 := { s2 with current_timing := some ct }
      (true, s3, if s.has_running_changed then [true] else [])

/-- The list `timings_to_write` assembled by `write_timings`: the
unwritten buffer, plus a synthetic interval for the open session when
its elapsed duration reaches `minimum_timing`. -/
def TimingsRecorder.timings_to_write (s : TimingsRecorder) (now : Int) : List Timing :=
  s.unwritten_timings ++
    match s.current_timing with
    | some current =>
        if s.minimum_timing ≤ now - current.start then
          [{ start := current.start, «end» := now
             project := current.project, client := current.client }]
        else []
    | none => []

/-- `write_timings`: hand `timings_to_write` to the persistence
collaborator; only on success clear the unwritten buffer.  The first
component is the recorder state after the call (`&mut self`). -/
def TimingsRecorder.write_timings (s : TimingsRecorder)
    (insert : List Timing → Except String Unit) (now : Int) :
    TimingsRecorder × Except String Unit :=
  match insert (s.timings_to_write now) with
  | .error e => (s, .error e)
  | .ok _ => ({ s with unwritten_timings := [] }, .ok ())

/-- `TimingsRecorder::get_totals`: on a cache miss flush first (the
flush also writes the open session) and pass no current timing to the
cache; on a hit pass the open session's start when it matches the
queried pair.  The first component is the recorder state after the
call. -/
def TimingsRecorder.get_totals (s : TimingsRecorder) (localDay : Int → Int)
    (client project : String) (now : Int) (conn : Conn) :
    TimingsRecorder × Except String Totals :=
  if s.totals_cache.has_cached_totals client project then
    let current_timing_start :=
      s.current_timing.bind fun ct =>
        if ct.client = client ∧ ct.project = project then some ct.start else none
    match s.totals_cache.get_totals localDay client project now conn current_timing_start with
    | .error e => (s, .error e)
    | .ok (totals, tc) => ({ s with totals_cache := tc }, .ok totals)
  else
    match s.write_timings conn.insert_timings now with
    | (s1, .error e) => (s1, .error e)
    | (s1, .ok _) =>
        match s1.totals_cache.get_totals localDay client project now conn none with
        | .error e => (s1, .error e)
        | .ok (totals, tc) => ({ s1 with totals_cache := tc }, .ok totals)

/-- Run a list of keep-alive calls. -/
def TimingsRecorder.runKeepAlives (s : TimingsRecorder) (localDay : Int → Int)
    (ts : List Int) : TimingsRecorder :=
  ts.foldl (fun s now => s.keep_alive_timing localDay now) s

/-- One externally observable recorder operation. -/
inductive RecorderOp where
  | startT (client project : String) (now : Int)
  | stopT (now : Int)
  | keepAlive (now : Int)
  | write (insert : List Timing → Except String Unit) (now : Int)
  | getTotals (conn : Conn) (client project : String) (now : Int)
  | setCallback

/-- State reached by one operation. -/
def TimingsRecorder.applyOp (s : TimingsRecorder) (localDay : Int → Int) :
    RecorderOp → TimingsRecorder
  | .startT client project now => (s.start_timing localDay client project now).2.1
  | .stopT now => (s.stop_timing localDay now).1
  | .keepAlive now => s.keep_alive_timing localDay now
  | .write insert now => (s.write_timings insert now).1
  | .getTotals conn client project now => (s.get_totals localDay client project now conn).1
  | .setCallback => s.set_running_changed_callback

/-- State reached by a sequence of operations. -/
def TimingsRecorder.run (s : TimingsRecorder) (localDay : Int → Int)
    (ops : List RecorderOp) : TimingsRecorder :=
  ops.foldl (fun s op => s.applyOp localDay op) s

/-- The upsert key of `insert_timings` in
`repository/timings_mutations.rs`: the SQL conflict target is
`(projectId, start)`, and `projectId` is resolved from the project name
within a client, so the key is `(client, project, start)`. -/
def dbKey (t : Timing) : String × String × Int := (t.client, t.project, t.start)

/-- The persisted `timing` table: rows `(key, end)` with the primary
key `(client, project, start)`. -/
abbrev TimingDb := List ((String × String × Int) × Int)

/-- One `INSERT ... ON CONFLICT (projectId, start) DO UPDATE SET end`
statement: replace the end time of the row with the same key, or append
a new row. -/
def TimingDb.upsertRow : TimingDb → (String × String × Int) → Int → TimingDb
  | [], k, e => [(k, e)]
  | (k', e') :: rest, k, e =>
      if k' = k then (k, e) :: rest
      else (k', e') :: TimingDb.upsertRow rest k e

/-- The loop of `insert_timings`: upsert every handed timing in order. -/
def TimingDb.insert_timings (db : TimingDb) (ts : List Timing) : TimingDb :=
  ts.foldl (fun db t => db.upsertRow (dbKey t) t.«end») db

/-- Primary-key uniqueness of the `timing` table. -/
def TimingDb.keysNodup (db : TimingDb) : Prop := (db.map Prod.fst).Nodup

/-- Buffered timings are filtered: at least `minimum_timing` long and
of positive duration. -/
def TimingsRecorder.BufferOk (s : TimingsRecorder) : Prop :=
  ∀ t ∈ s.unwritten_timings, s.minimum_timing ≤ t.duration ∧ 0 < t.duration

/-- A UTC-like observer for concrete witnesses: the local day of an
instant is its floor-division by 86400 seconds. -/
def utcDay : Int → Int := fun t => t.fdiv 86400

/-- All four fields of a `Totals` are non-negative. -/
def Totals.Nonneg (t : Totals) : Prop :=
  0 ≤ t.today ∧ 0 ≤ t.this_week ∧ 0 ≤ t.last_week ∧ 0 ≤ t.eight_weeks

/-- The intervals `finalize_current_timing` appends at `now`: the open
session ended at `now` when it passes the minimum-duration filter,
nothing otherwise. -/
def TimingsRecorder.finalized (s : TimingsRecorder) (now : Int) : List Timing :=
  match s.current_timing with
  | some c =>
      if s.minimum_timing ≤ now - c.start ∧ 0 < now - c.start then
        [{ start := c.start, «end» := now, project := c.project, client := c.client }]
      else []
  | none => []

/-! ### Lemmas about `DailyTotals` -/

theorem DailyTotals.get?_mem {m : DailyTotals} {d v : Int}
    (h : m.get? d = some v) : (d, v) ∈ m := by
  induction m with
  | nil => simp [DailyTotals.get?] at h
  | cons p rest ih =>
      obtain ⟨k, w⟩ := p
      by_cases hk : k = d
      · subst hk
        simp [DailyTotals.get?] at h
        subst h
        exact List.mem_cons_self _ _
      · simp [DailyTotals.get?, hk] at h
        exact List.mem_cons_of_mem _ (ih h)

theorem DailyTotals.getD_nonneg {m : DailyTotals} (h : ∀ p ∈ m, 0 ≤ p.2)
    (d : Int) : 0 ≤ m.getD d := by
  unfold DailyTotals.getD
  cases hm : m.get? d with
  | none => simp
  | some v => simpa using h _ (DailyTotals.get?_mem hm)

theorem DailyTotals.sumDaysAux_nonneg {m : DailyTotals} (h : ∀ p ∈ m, 0 ≤ p.2) :
    ∀ (n : Nat) (lo : Int), 0 ≤ m.sumDaysAux lo n := by
  intro n
  induction n with
  | zero => intro lo; simp [DailyTotals.sumDaysAux]
  | succ n ih =>
      intro lo
      have h1 := DailyTotals.getD_nonneg h lo
      have h2 := ih (lo + 1)
      simp only [DailyTotals.sumDaysAux]
      omega

theorem DailyTotals.sumDays_nonneg {m : DailyTotals} (h : ∀ p ∈ m, 0 ≤ p.2)
    (lo hi : Int) : 0 ≤ m.sumDays lo hi :=
  DailyTotals.sumDaysAux_nonneg h _ lo

/-- The `while current_date <= hi` loop computes the sum of the (getD)
buckets over the integer interval `[lo, hi]`. -/
theorem DailyTotals.sumDays_eq_sum_Icc (m : DailyTotals) (lo hi : Int) :
    m.sumDays lo hi = ∑ d ∈ Finset.Icc lo hi, m.getD d := by
  unfold DailyTotals.sumDays
  generalize hn : (hi + 1 - lo).toNat = n
  induction n generalizing lo with
  | zero =>
      have hlt : hi < lo := by omega
      rw [Finset.Icc_eq_empty (by omega)]
      simp [DailyTotals.sumDaysAux]
  | succ n ih =>
      have hle : lo ≤ hi := by omega
      have h2 : (hi + 1 - (lo + 1)).toNat = n := by omega
      have hicc : Finset.Icc lo hi = insert lo (Finset.Icc (lo + 1) hi) := by
        ext x
        simp only [Finset.mem_Icc, Finset.mem_insert]
        omega
      rw [DailyTotals.sumDaysAux, ih (lo + 1) h2, hicc,
        Finset.sum_insert (by simp only [Finset.mem_Icc]; omega)]

theorem DailyTotals.addToDay_getD_self (m : DailyTotals) (d delta : Int) :
    (m.addToDay d delta).getD d = m.getD d + delta := by
  induction m with
  | nil => simp [DailyTotals.addToDay, DailyTotals.getD, DailyTotals.get?]
  | cons p rest ih =>
      obtain ⟨k, v⟩ := p
      by_cases hk : k = d
      · subst hk
        simp [DailyTotals.addToDay, DailyTotals.getD, DailyTotals.get?]
      · simp only [DailyTotals.getD] at ih
        simp [DailyTotals.addToDay, DailyTotals.getD, DailyTotals.get?, hk, ih]

theorem DailyTotals.addToDay_getD_other (m : DailyTotals) (d delta d' : Int)
    (h : d' ≠ d) : (m.addToDay d delta).getD d' = m.getD d' := by
  have hd : d ≠ d' := Ne.symm h
  induction m with
  | nil => simp [DailyTotals.addToDay, DailyTotals.getD, DailyTotals.get?, hd]
  | cons p rest ih =>
      obtain ⟨k, v⟩ := p
      by_cases hk : k = d
      · subst hk
        simp [DailyTotals.addToDay, DailyTotals.getD, DailyTotals.get?, hd]
      · simp only [DailyTotals.getD] at ih
        by_cases hk' : k = d'
        · subst hk'
          simp [DailyTotals.addToDay, DailyTotals.getD, DailyTotals.get?, hk]
        · simp [DailyTotals.addToDay, DailyTotals.getD, DailyTotals.get?, hk, hk', ih]

theorem DailyTotals.addToDay_sumAll (m : DailyTotals) (d delta : Int) :
    (m.addToDay d delta).sumAll = m.sumAll + delta := by
  induction m with
  | nil => simp [DailyTotals.addToDay, DailyTotals.sumAll]
  | cons p rest ih =>
      obtain ⟨k, v⟩ := p
      by_cases hk : k = d
      · subst hk
        simp [DailyTotals.addToDay, DailyTotals.sumAll]
        ring
      · simp [DailyTotals.addToDay, DailyTotals.sumAll, hk] at ih ⊢
        omega

theorem DailyTotals.setDay_nonneg {m : DailyTotals} (h : ∀ p ∈ m, 0 ≤ p.2)
    {d v : Int} (hv : 0 ≤ v) : ∀ p ∈ m.setDay d v, 0 ≤ p.2 := by
  induction m with
  | nil => simpa [DailyTotals.setDay]
  | cons q rest ih =>
      obtain ⟨k, w⟩ := q
      by_cases hk : k = d
      · subst hk
        intro p hp
        simp only [DailyTotals.setDay, if_true, eq_self_iff_true, List.mem_cons] at hp
        rcases hp with hp | hp
        · subst hp; exact hv
        · exact h p (List.mem_cons_of_mem _ hp)
      · intro p hp
        simp only [DailyTotals.setDay, if_neg hk, List.mem_cons] at hp
        rcases hp with hp | hp
        · subst hp; exact h _ (List.mem_cons_self _ _)
        · exact ih (fun q hq => h q (List.mem_cons_of_mem _ hq)) p hp

theorem DailyTotals.from_rows_nonneg {rows : List (Int × Int)}
    (h : ∀ r ∈ rows, 0 ≤ r.2) : ∀ p ∈ DailyTotals.from_rows rows, 0 ≤ p.2 := by
  unfold DailyTotals.from_rows
  suffices H : ∀ (acc : DailyTotals), (∀ p ∈ acc, 0 ≤ p.2) →
      ∀ p ∈ rows.foldl (fun m p => m.setDay p.1 p.2) acc, 0 ≤ p.2 by
    exact H [] (by simp)
  induction rows with
  | nil => intro acc hacc; simpa using hacc
  | cons r rest ih =>
      intro acc hacc
      simp only [List.foldl_cons]
      exact ih (fun q hq => h q (List.mem_cons_of_mem _ hq))
        (acc.setDay r.1 r.2)
        (DailyTotals.setDay_nonneg hacc (h r (List.mem_cons_self _ _)))

/-! ### Lemmas about `TotalsCache` -/

theorem TotalsCache.find?_mem {tc : TotalsCache} {c p : String} {dt : DailyTotals}
    (h : tc.find? c p = some dt) : ((c, p), dt) ∈ tc := by
  induction tc with
  | nil => simp [TotalsCache.find?] at h
  | cons e rest ih =>
      obtain ⟨k, dt'⟩ := e
      by_cases hk : k = (c, p)
      · subst hk
        simp [TotalsCache.find?] at h
        subst h
        exact List.mem_cons_self _ _
      · simp [TotalsCache.find?, hk] at h
        exact List.mem_cons_of_mem _ (ih h)

theorem TotalsCache.add_timing_find?_self {tc : TotalsCache} (localDay : Int → Int)
    {t : Timing} {dt : DailyTotals} (h : tc.find? t.client t.project = some dt) :
    (tc.add_timing localDay t).find? t.client t.project =
      some (dt.insert_timing localDay t.start t.«end») := by
  induction tc with
  | nil => simp [TotalsCache.find?] at h
  | cons e rest ih =>
      obtain ⟨k, dt'⟩ := e
      by_cases hk : k = (t.client, t.project)
      · subst hk
        simp [TotalsCache.find?] at h
        subst h
        simp [TotalsCache.add_timing, TotalsCache.find?]
      · simp only [TotalsCache.find?, if_neg hk] at h
        simp [TotalsCache.add_timing, TotalsCache.find?, hk, ih h]

/-! ### C5: `to_totals` rolling windows -/

/-- C5: for every `DailyTotals` map and every `now`, `to_totals now`
returns: `today` equal to the bucket for `now`'s local date or zero
(`getD` is the bucket-or-zero lookup); `this_week` equal to the sum of
the buckets from this week's Monday (`today - today.emod 7`) through
today inclusive; `last_week` equal to the sum over the full prior
Monday-through-Sunday week; `eight_weeks` equal to the sum from
`today - 8` weeks (56 days) through today inclusive; every absent day
bucket contributes zero to each sum (it contributes `getD = 0`). -/
theorem c5_to_totals_windows (m : DailyTotals) (localDay : Int → Int) (now : Int) :
    (m.to_totals localDay now).today = m.getD (localDay now) ∧
    (m.to_totals localDay now).this_week =
      ∑ d ∈ Finset.Icc (localDay now - (localDay now).emod 7) (localDay now), m.getD d ∧
    (m.to_totals localDay now).last_week =
      ∑ d ∈ Finset.Icc (localDay now - (localDay now).emod 7 - 7)
        (localDay now - (localDay now).emod 7 - 1), m.getD d ∧
    (m.to_totals localDay now).eight_weeks =
      ∑ d ∈ Finset.Icc (localDay now - 56) (localDay now), m.getD d := by
  refine ⟨rfl, ?_, ?_, ?_⟩ <;>
    simp only [DailyTotals.to_totals, DailyTotals.sumDays_eq_sum_Icc]

/-! ### C10: incremental `add_timing` bucket attribution -/

/-- C10: an interval added to a warm cache entry has its entire
duration `end - start` attributed to the single bucket of the local
calendar day of its start instant; every other day bucket — in
particular the local day the interval ends on, when that day differs —
is unchanged; and the sum over all buckets grows by exactly the
interval's duration. -/
theorem c10_add_timing_buckets (tc : TotalsCache) (localDay : Int → Int)
    (t : Timing) (dt : DailyTotals)
    (h : tc.find? t.client t.project = some dt) :
    (tc.add_timing localDay t).find? t.client t.project =
      some (dt.insert_timing localDay t.start t.«end») ∧
    (dt.insert_timing localDay t.start t.«end»).getD (localDay t.start) =
      dt.getD (localDay t.start) + t.duration ∧
    (∀ d, d ≠ localDay t.start →
      (dt.insert_timing localDay t.start t.«end»).getD d = dt.getD d) ∧
    (dt.insert_timing localDay t.start t.«end»).sumAll = dt.sumAll + t.duration := by
  refine ⟨TotalsCache.add_timing_find?_self localDay h, ?_, ?_, ?_⟩
  · simpa [DailyTotals.insert_timing, Timing.duration]
      using DailyTotals.addToDay_getD_self dt (localDay t.start) (t.«end» - t.start)
  · intro d hd
    simpa [DailyTotals.insert_timing]
      using DailyTotals.addToDay_getD_other dt (localDay t.start) (t.«end» - t.start) d hd
  · simpa [DailyTotals.insert_timing, Timing.duration]
      using DailyTotals.addToDay_sumAll dt (localDay t.start) (t.«end» - t.start)

/-- Witness for `c10_add_timing_buckets` at a concrete warm cache:
the pair ("A", "P") holds the map `[(0, 5)]`, and the timing
`[86400, 86500]` (crossing into local day 1) lands entirely in the
bucket of day 1. -/
theorem c10_add_timing_buckets_witness :
    TotalsCache.find? [(("A", "P"), [(0, 5)])] "A" "P" = some [(0, 5)] ∧
    TotalsCache.find?
        (TotalsCache.add_timing [(("A", "P"), [(0, 5)])] utcDay
          { start := 86400, «end» := 86500, project := "P", client := "A" }) "A" "P" =
      some (DailyTotals.insert_timing [(0, 5)] utcDay 86400 86500) ∧
    DailyTotals.sumAll (DailyTotals.insert_timing [(0, 5)] utcDay 86400 86500) =
      DailyTotals.sumAll [(0, 5)] +
        Timing.duration { start := 86400, «end» := 86500, project := "P", client := "A" } := by
  refine ⟨by decide, ?_, ?_⟩
  · exact (c10_add_timing_buckets _ utcDay _ _ (by decide)).1
  · exact (c10_add_timing_buckets [(("A", "P"), [(0, 5)])]
      utcDay { start := 86400, «end» := 86500, project := "P", client := "A" } [(0, 5)]
      (by decide)).2.2.2

/-! ### Equation lemmas for the recorder operations -/

theorem TimingsRecorder.add_timing_drop (s : TimingsRecorder) (localDay : Int → Int)
    (t : Timing) (h : t.«end» - t.start < s.minimum_timing ∨ t.«end» - t.start ≤ 0) :
    s.add_timing localDay t = s := by
  unfold TimingsRecorder.add_timing
  rcases h with h | h
  · rw [if_pos h]
  · by_cases h1 : t.«end» - t.start < s.minimum_timing
    · rw [if_pos h1]
    · rw [if_neg h1, if_neg (by omega)]

theorem TimingsRecorder.add_timing_pass (s : TimingsRecorder) (localDay : Int → Int)
    (t : Timing) (h1 : s.minimum_timing ≤ t.«end» - t.start)
    (h2 : 0 < t.«end» - t.start) :
    s.add_timing localDay t =
      { s with totals_cache := s.totals_cache.add_timing localDay t
               unwritten_timings := s.unwritten_timings ++ [t] } := by
  unfold TimingsRecorder.add_timing
  rw [if_neg (by omega), if_pos h2]

theorem TimingsRecorder.set_last_eq_self (s : TimingsRecorder) (l : Int)
    (h : s.last_keep_alive = some l) :
    { s with last_keep_alive := some l } = s := by
  cases s
  simp only at h
  simp [h]


/-- `keep_alive_timing` only moves `last_keep_alive` when no gap split
fires (no open session, no recorded keep-alive, or a gap of at most 60
seconds). -/
theorem TimingsRecorder.keep_alive_no_split (s : TimingsRecorder)
    (localDay : Int → Int) (now : Int)
    (h : ∀ c l, s.current_timing = some c → s.last_keep_alive = some l →
      now - l ≤ 60) :
    s.keep_alive_timing localDay now = { s with last_keep_alive := some now } := by
  obtain ⟨bu, cu, la, mi, tc, fl⟩ := s
  cases cu with
  | none => cases la <;> rfl
  | some c =>
      cases la with
      | none => rfl
      | some l =>
          have hle : now - l ≤ 60 := h c l rfl rfl
          have hn : ¬ (60 < now - l) := by omega
          simp [TimingsRecorder.keep_alive_timing, hn]

/-- `keep_alive_timing` with an open session, a recorded keep-alive and
a gap of more than 60 seconds: split at the last keep-alive instant and
restart the session at `now`. -/
theorem TimingsRecorder.keep_alive_gap (s : TimingsRecorder)
    (localDay : Int → Int) (now : Int) (c : CurrentTiming) (l : Int)
    (hc : s.current_timing = some c) (hl : s.last_keep_alive = some l)
    (h : 60 < now - l) :
    s.keep_alive_timing localDay now =
      { ({ s with current_timing := some { c with start := now } }).add_timing localDay
          { start := c.start, «end» := l, project := c.project, client := c.client } with
        last_keep_alive := some now } := by
  obtain ⟨bu, cu, la, mi, tc, fl⟩ := s
  obtain rfl : cu = some c := hc
  obtain rfl : la = some l := hl
  simp [TimingsRecorder.keep_alive_timing, h]

theorem TimingsRecorder.finalize_none (s : TimingsRecorder) (localDay : Int → Int)
    (now : Int) (hc : s.current_timing = none) :
    s.finalize_current_timing localDay now = s := by
  obtain ⟨bu, cu, la, mi, tc, fl⟩ := s
  obtain rfl : cu = none := hc
  rfl

theorem TimingsRecorder.finalize_some_pass (s : TimingsRecorder) (localDay : Int → Int)
    (now : Int) (c : CurrentTiming) (hc : s.current_timing = some c)
    (h1 : s.minimum_timing ≤ now - c.start) (h2 : 0 < now - c.start) :
    s.finalize_current_timing localDay now =
      { s with current_timing := none
               unwritten_timings := s.unwritten_timings ++
                 [{ start := c.start, «end» := now, project := c.project, client := c.client }]
               totals_cache := s.totals_cache.add_timing localDay
                 { start := c.start, «end» := now, project := c.project, client := c.client } } := by
  obtain ⟨bu, cu, la, mi, tc, fl⟩ := s
  obtain rfl : cu = some c := hc
  show TimingsRecorder.add_timing _ localDay _ = _
  rw [TimingsRecorder.add_timing_pass _ _ _ (by simpa using h1) (by simpa using h2)]

theorem TimingsRecorder.finalize_some_drop (s : TimingsRecorder) (localDay : Int → Int)
    (now : Int) (c : CurrentTiming) (hc : s.current_timing = some c)
    (h : now - c.start < s.minimum_timing ∨ now - c.start ≤ 0) :
    s.finalize_current_timing localDay now = { s with current_timing := none } := by
  obtain ⟨bu, cu, la, mi, tc, fl⟩ := s
  obtain rfl : cu = some c := hc
  show TimingsRecorder.add_timing _ localDay _ = _
  rw [TimingsRecorder.add_timing_drop _ _ _ (by simpa using h)]

theorem TimingsRecorder.finalize_current_eq_none (s : TimingsRecorder)
    (localDay : Int → Int) (now : Int) :
    (s.finalize_current_timing localDay now).current_timing = none := by
  obtain ⟨bu, cu, la, mi, tc, fl⟩ := s
  cases cu with
  | none => rfl
  | some c =>
      show (TimingsRecorder.add_timing _ localDay _).current_timing = none
      simp only [TimingsRecorder.add_timing]
      split
      · rfl
      · split <;> rfl

theorem TimingsRecorder.runKeepAlives_nil (s : TimingsRecorder) (localDay : Int → Int) :
    s.runKeepAlives localDay [] = s := rfl

theorem TimingsRecorder.runKeepAlives_cons (s : TimingsRecorder) (localDay : Int → Int)
    (t : Int) (ts : List Int) :
    s.runKeepAlives localDay (t :: ts) =
      (s.keep_alive_timing localDay t).runKeepAlives localDay ts := rfl

/-- A run of keep-alive calls each at most 60 seconds after the
previous recorded keep-alive never splits the session: it only moves
`last_keep_alive` to the final call instant. -/
theorem TimingsRecorder.runKeepAlives_chain (localDay : Int → Int) :
    ∀ (ts : List Int) (s : TimingsRecorder) (l : Int),
      s.last_keep_alive = some l →
      List.Chain (fun a b => b - a ≤ 60) l ts →
      s.runKeepAlives localDay ts =
        { s with last_keep_alive := some ((l :: ts).getLast (List.cons_ne_nil l ts)) } := by
  intro ts
  induction ts with
  | nil =>
      intro s l hl _
      rw [TimingsRecorder.runKeepAlives_nil]
      rw [List.getLast_singleton]
      exact (TimingsRecorder.set_last_eq_self s l hl).symm
  | cons t ts ih =>
      intro s l hl hch
      rw [List.chain_cons] at hch
      obtain ⟨h1, hch'⟩ := hch
      rw [TimingsRecorder.runKeepAlives_cons]
      have hka : s.keep_alive_timing localDay t = { s with last_keep_alive := some t } :=
        TimingsRecorder.keep_alive_no_split s localDay t
          (fun c l' _ hl' => by rw [hl] at hl'; injection hl' with h2; omega)
      rw [hka, ih _ t rfl hch']
      rfl

/-- Starting from an idle recorder with non-empty trimmed names: the
session starts at `now` and the last keep-alive is set to `now`. -/
theorem TimingsRecorder.start_timing_idle (s : TimingsRecorder) (localDay : Int → Int)
    (client project : String) (now : Int) (hidle : s.current_timing = none)
    (hc : strTrim client ≠ "") (hp : strTrim project ≠ "") :
    s.start_timing localDay client project now =
      (true,
       { s with current_timing :=
                  some { start := now, project := strTrim project, client := strTrim client }
                last_keep_alive := some now },
       if s.has_running_changed then [true] else []) := by
  obtain ⟨bu, cu, la, mi, tc, fl⟩ := s
  obtain rfl : cu = none := hidle
  have hka : TimingsRecorder.keep_alive_timing ⟨bu, none, la, mi, tc, fl⟩ localDay now =
      ⟨bu, none, some now, mi, tc, fl⟩ :=
    TimingsRecorder.keep_alive_no_split _ _ _ (fun c l hcc _ => by cases hcc)
  simp only [TimingsRecorder.start_timing, hka]
  rw [if_neg (by simp [hc, hp])]
  rfl

/-- Stopping a recording session with no pending keep-alive gap and a
session long enough to pass the minimum-duration filter. -/
theorem TimingsRecorder.stop_timing_close (s : TimingsRecorder) (localDay : Int → Int)
    (now : Int) (c : CurrentTiming) (l : Int)
    (hc : s.current_timing = some c) (hl : s.last_keep_alive = some l)
    (hgap : now - l ≤ 60)
    (hmin : s.minimum_timing ≤ now - c.start) (hpos : 0 < now - c.start) :
    (s.stop_timing localDay now).1 =
      { s with current_timing := none
               last_keep_alive := some now
               unwritten_timings := s.unwritten_timings ++
                 [{ start := c.start, «end» := now, project := c.project, client := c.client }]
               totals_cache := s.totals_cache.add_timing localDay
                 { start := c.start, «end» := now, project := c.project, client := c.client } } := by
  have hka : s.keep_alive_timing localDay now = { s with last_keep_alive := some now } :=
    TimingsRecorder.keep_alive_no_split s localDay now
      (fun c' l' _ hl' => by rw [hl] at hl'; injection hl' with e; omega)
  show ((s.keep_alive_timing localDay now).finalize_current_timing localDay now) = _
  rw [hka]
  rw [TimingsRecorder.finalize_some_pass { s with last_keep_alive := some now }
    localDay now c hc hmin hpos]

/-! ### C1: keep-alive gap detection -/

/-- C1: for a recorder in the Recording state with a recorded last
keep-alive, `keep_alive_timing now` with more than 60 seconds elapsed
since the last keep-alive finalizes exactly one interval from the open
session's start to the last keep-alive instant (not to `now`), passed
through the minimum-duration filter, restarts the open session at `now`
and sets the last keep-alive to `now`; with 60 seconds or less elapsed
it only updates the last keep-alive.  Consequently a start/stop pair
whose keep-alives are all at most 60 seconds apart produces exactly one
interval (provided it passes the filter), and a single gap of more than
60 seconds produces exactly two. -/
theorem c1_keep_alive_timing (localDay : Int → Int) :
    (∀ (s : TimingsRecorder) (c : CurrentTiming) (l now : Int),
      s.current_timing = some c → s.last_keep_alive = some l → 60 < now - l →
        (s.keep_alive_timing localDay now).current_timing = some { c with start := now } ∧
        (s.keep_alive_timing localDay now).last_keep_alive = some now ∧
        (s.keep_alive_timing localDay now).unwritten_timings =
          s.unwritten_timings ++
            (if s.minimum_timing ≤ l - c.start ∧ 0 < l - c.start then
              [{ start := c.start, «end» := l, project := c.project, client := c.client }]
            else [])) ∧
    (∀ (s : TimingsRecorder) (c : CurrentTiming) (l now : Int),
      s.current_timing = some c → s.last_keep_alive = some l → now - l ≤ 60 →
        s.keep_alive_timing localDay now = { s with last_keep_alive := some now }) ∧
    (∀ (s0 : TimingsRecorder) (client project : String) (t0 tend : Int) (ts : List Int),
      s0.current_timing = none → strTrim client ≠ "" → strTrim project ≠ "" →
      List.Chain (fun a b => b - a ≤ 60) t0 ts →
      tend - (t0 :: ts).getLast (List.cons_ne_nil t0 ts) ≤ 60 →
      s0.minimum_timing ≤ tend - t0 → 0 < tend - t0 →
      (((((s0.start_timing localDay client project t0).2.1).runKeepAlives localDay ts).stop_timing
          localDay tend).1).unwritten_timings =
        s0.unwritten_timings ++
          [{ start := t0, «end» := tend, project := strTrim project, client := strTrim client }]) ∧
    (∀ (s0 : TimingsRecorder) (client project : String) (t0 g tend : Int) (ts1 ts2 : List Int),
      s0.current_timing = none → strTrim client ≠ "" → strTrim project ≠ "" →
      List.Chain (fun a b => b - a ≤ 60) t0 ts1 →
      60 < g - (t0 :: ts1).getLast (List.cons_ne_nil t0 ts1) →
      List.Chain (fun a b => b - a ≤ 60) g ts2 →
      tend - (g :: ts2).getLast (List.cons_ne_nil g ts2) ≤ 60 →
      s0.minimum_timing ≤ (t0 :: ts1).getLast (List.cons_ne_nil t0 ts1) - t0 →
      0 < (t0 :: ts1).getLast (List.cons_ne_nil t0 ts1) - t0 →
      s0.minimum_timing ≤ tend - g → 0 < tend - g →
      ((((((s0.start_timing localDay client project t0).2.1).runKeepAlives localDay
            ts1).keep_alive_timing localDay g).runKeepAlives localDay ts2).stop_timing
          localDay tend).1.unwritten_timings =
        s0.unwritten_timings ++
          [{ start := t0, «end» := (t0 :: ts1).getLast (List.cons_ne_nil t0 ts1),
             project := strTrim project, client := strTrim client },
           { start := g, «end» := tend, project := strTrim project, client := strTrim client }]) := by
  refine ⟨?_, ?_, ?_, ?_⟩
  · intro s c l now hc hl hgap
    rw [TimingsRecorder.keep_alive_gap s localDay now c l hc hl hgap]
    by_cases hpass : s.minimum_timing ≤ l - c.start ∧ 0 < l - c.start
    · rw [TimingsRecorder.add_timing_pass { s with current_timing := some { c with start := now } }
        localDay _ (by simpa using hpass.1) (by simpa using hpass.2)]
      rw [if_pos hpass]
      exact ⟨rfl, rfl, rfl⟩
    · rw [TimingsRecorder.add_timing_drop { s with current_timing := some { c with start := now } }
        localDay _ (by rcases not_and_or.mp hpass with h | h
                       · left; simpa using by omega
                       · right; simpa using by omega)]
      rw [if_neg hpass]
      exact ⟨rfl, rfl, by simp⟩
  · intro s c l now hc hl hle
    exact TimingsRecorder.keep_alive_no_split s localDay now
      (fun c' l' _ hl' => by rw [hl] at hl'; injection hl' with e; omega)
  · intro s0 client project t0 tend ts hidle hc hp hch hstop hmin hpos
    have e2 : (s0.start_timing localDay client project t0).2.1 =
        { s0 with current_timing :=
                    some { start := t0, project := strTrim project, client := strTrim client }
                  last_keep_alive := some t0 } := by
      rw [TimingsRecorder.start_timing_idle s0 localDay client project t0 hidle hc hp]
    have e3 : TimingsRecorder.runKeepAlives
        { s0 with current_timing :=
                    some { start := t0, project := strTrim project, client := strTrim client }
                  last_keep_alive := some t0 } localDay ts =
        { s0 with current_timing :=
                    some { start := t0, project := strTrim project, client := strTrim client }
                  last_keep_alive := some ((t0 :: ts).getLast (List.cons_ne_nil t0 ts)) } :=
      TimingsRecorder.runKeepAlives_chain localDay ts _ t0 rfl hch
    have e4 : (TimingsRecorder.stop_timing
        { s0 with current_timing :=
                    some { start := t0, project := strTrim project, client := strTrim client }
                  last_keep_alive := some ((t0 :: ts).getLast (List.cons_ne_nil t0 ts)) }
        localDay tend).1 =
        { s0 with current_timing := none
                  last_keep_alive := some tend
                  unwritten_timings := s0.unwritten_timings ++
                    [{ start := t0, «end» := tend,
                       project := strTrim project, client := strTrim client }]
                  totals_cache := s0.totals_cache.add_timing localDay
                    { start := t0, «end» := tend,
                      project := strTrim project, client := strTrim client } } :=
      TimingsRecorder.stop_timing_close _ localDay tend
        { start := t0, project := strTrim project, client := strTrim client }
        ((t0 :: ts).getLast (List.cons_ne_nil t0 ts)) rfl rfl hstop hmin hpos
    rw [e2, e3, e4]
  · intro s0 client project t0 g tend ts1 ts2 hidle hc hp hch1 hgap hch2 hstop hmin1 hpos1
      hmin2 hpos2
    have e2 : (s0.start_timing localDay client project t0).2.1 =
        { s0 with current_timing :=
                    some { start := t0, project := strTrim project, client := strTrim client }
                  last_keep_alive := some t0 } := by
      rw [TimingsRecorder.start_timing_idle s0 localDay client project t0 hidle hc hp]
    have e3 : TimingsRecorder.runKeepAlives
        { s0 with current_timing :=
                    some { start := t0, project := strTrim project, client := strTrim client }
                  last_keep_alive := some t0 } localDay ts1 =
        { s0 with current_timing :=
                    some { start := t0, project := strTrim project, client := strTrim client }
                  last_keep_alive := some ((t0 :: ts1).getLast (List.cons_ne_nil t0 ts1)) } :=
      TimingsRecorder.runKeepAlives_chain localDay ts1 _ t0 rfl hch1
    have e4 : TimingsRecorder.keep_alive_timing
        { s0 with current_timing :=
                    some { start := t0, project := strTrim project, client := strTrim client }
                  last_keep_alive := some ((t0 :: ts1).getLast (List.cons_ne_nil t0 ts1)) }
        localDay g =
        { s0 with current_timing :=
                    some { start := g, project := strTrim project, client := strTrim client }
                  last_keep_alive := some g
                  unwritten_timings := s0.unwritten_timings ++
                    [{ start := t0, «end» := (t0 :: ts1).getLast (List.cons_ne_nil t0 ts1),
                       project := strTrim project, client := strTrim client }]
                  totals_cache := s0.totals_cache.add_timing localDay
                    { start := t0, «end» := (t0 :: ts1).getLast (List.cons_ne_nil t0 ts1),
                      project := strTrim project, client := strTrim client } } := by
      rw [TimingsRecorder.keep_alive_gap _ localDay g
        { start := t0, project := strTrim project, client := strTrim client }
        ((t0 :: ts1).getLast (List.cons_ne_nil t0 ts1)) rfl rfl hgap]
      rw [TimingsRecorder.add_timing_pass _ localDay _
        (by simpa using hmin1) (by simpa using hpos1)]
    have e5 : TimingsRecorder.runKeepAlives
        { s0 with current_timing :=
                    some { start := g, project := strTrim project, client := strTrim client }
                  last_keep_alive := some g
                  unwritten_timings := s0.unwritten_timings ++
                    [{ start := t0, «end» := (t0 :: ts1).getLast (List.cons_ne_nil t0 ts1),
                       project := strTrim project, client := strTrim client }]
                  totals_cache := s0.totals_cache.add_timing localDay
                    { start := t0, «end» := (t0 :: ts1).getLast (List.cons_ne_nil t0 ts1),
                      project := strTrim project, client := strTrim client } } localDay ts2 =
        { s0 with current_timing :=
                    some { start := g, project := strTrim project, client := strTrim client }
                  last_keep_alive := some ((g :: ts2).getLast (List.cons_ne_nil g ts2))
                  unwritten_timings := s0.unwritten_timings ++
                    [{ start := t0, «end» := (t0 :: ts1).getLast (List.cons_ne_nil t0 ts1),
                       project := strTrim project, client := strTrim client }]
                  totals_cache := s0.totals_cache.add_timing localDay
                    { start := t0, «end» := (t0 :: ts1).getLast (List.cons_ne_nil t0 ts1),
                      project := strTrim project, client := strTrim client } } :=
      TimingsRecorder.runKeepAlives_chain localDay ts2 _ g rfl hch2
    have e6 : (TimingsRecorder.stop_timing
        { s0 with current_timing :=
                    some { start := g, project := strTrim project, client := strTrim client }
                  last_keep_alive := some ((g :: ts2).getLast (List.cons_ne_nil g ts2))
                  unwritten_timings := s0.unwritten_timings ++
                    [{ start := t0, «end» := (t0 :: ts1).getLast (List.cons_ne_nil t0 ts1),
                       project := strTrim project, client := strTrim client }]
                  totals_cache := s0.totals_cache.add_timing localDay
                    { start := t0, «end» := (t0 :: ts1).getLast (List.cons_ne_nil t0 ts1),
                      project := strTrim project, client := strTrim client } }
        localDay tend).1.unwritten_timings =
        (s0.unwritten_timings ++
          [{ start := t0, «end» := (t0 :: ts1).getLast (List.cons_ne_nil t0 ts1),
             project := strTrim project, client := strTrim client }]) ++
          [{ start := g, «end» := tend,
             project := strTrim project, client := strTrim client }] := by
      rw [TimingsRecorder.stop_timing_close
        { s0 with current_timing :=
                    some { start := g, project := strTrim project, client := strTrim client }
                  last_keep_alive := some ((g :: ts2).getLast (List.cons_ne_nil g ts2))
                  unwritten_timings := s0.unwritten_timings ++
                    [{ start := t0, «end» := (t0 :: ts1).getLast (List.cons_ne_nil t0 ts1),
                       project := strTrim project, client := strTrim client }]
                  totals_cache := s0.totals_cache.add_timing localDay
                    { start := t0, «end» := (t0 :: ts1).getLast (List.cons_ne_nil t0 ts1),
                      project := strTrim project, client := strTrim client } }
        localDay tend
        { start := g, project := strTrim project, client := strTrim client }
        ((g :: ts2).getLast (List.cons_ne_nil g ts2)) rfl rfl hstop hmin2 hpos2]
    rw [e2, e3, e4, e5, e6]
    simp

/-- Witness for `c1_keep_alive_timing`: a recorder recording ("A","P")
since 0 with last keep-alive at 30 and minimum 3; a keep-alive at 100
(gap 70 > 60) finalizes exactly the interval [0, 30]. -/
theorem c1_keep_alive_timing_witness :
    (60 : Int) < 100 - 30 ∧
    ((TimingsRecorder.mk [] (some ⟨0, "P", "A"⟩) (some 30) 3 [] false).keep_alive_timing
        utcDay 100).unwritten_timings =
      [] ++ (if (3 : Int) ≤ 30 - 0 ∧ (0 : Int) < 30 - 0 then
        [{ start := 0, «end» := 30, project := "P", client := "A" }] else []) := by
  refine ⟨by decide, ?_⟩
  exact ((c1_keep_alive_timing utcDay).1 _ ⟨0, "P", "A"⟩ 30 100 rfl rfl (by decide)).2.2

/-! ### Field-preservation lemmas -/

theorem TimingsRecorder.add_timing_fields (s : TimingsRecorder) (localDay : Int → Int)
    (t : Timing) :
    (s.add_timing localDay t).current_timing = s.current_timing ∧
    (s.add_timing localDay t).last_keep_alive = s.last_keep_alive ∧
    (s.add_timing localDay t).minimum_timing = s.minimum_timing ∧
    (s.add_timing localDay t).has_running_changed = s.has_running_changed := by
  simp only [TimingsRecorder.add_timing]
  split
  · exact ⟨rfl, rfl, rfl, rfl⟩
  · split
    · exact ⟨rfl, rfl, rfl, rfl⟩
    · exact ⟨rfl, rfl, rfl, rfl⟩

theorem TimingsRecorder.keep_alive_fields (s : TimingsRecorder) (localDay : Int → Int)
    (now : Int) :
    (s.keep_alive_timing localDay now).minimum_timing = s.minimum_timing ∧
    (s.keep_alive_timing localDay now).has_running_changed = s.has_running_changed ∧
    (s.keep_alive_timing localDay now).last_keep_alive = some now := by
  obtain ⟨bu, cu, la, mi, tc, fl⟩ := s
  cases cu with
  | none => cases la <;> exact ⟨rfl, rfl, rfl⟩
  | some c =>
      cases la with
      | none => exact ⟨rfl, rfl, rfl⟩
      | some l =>
          simp only [TimingsRecorder.keep_alive_timing]
          split
          · exact ⟨(TimingsRecorder.add_timing_fields _ localDay _).2.2.1,
              (TimingsRecorder.add_timing_fields _ localDay _).2.2.2, trivial⟩
          · exact ⟨rfl, rfl, trivial⟩

theorem TimingsRecorder.keep_alive_current_none (s : TimingsRecorder)
    (localDay : Int → Int) (now : Int) (hc : s.current_timing = none) :
    (s.keep_alive_timing localDay now).current_timing = none := by
  rw [TimingsRecorder.keep_alive_no_split s localDay now
    (fun c l hcc _ => by rw [hc] at hcc; cases hcc)]
  exact hc

/-- The implicit keep-alive can move the open session's start, but its
(client, project) pair is preserved. -/
theorem TimingsRecorder.keep_alive_current_pair (s : TimingsRecorder)
    (localDay : Int → Int) (now : Int) (c : CurrentTiming)
    (hc : s.current_timing = some c) :
    ∃ c', (s.keep_alive_timing localDay now).current_timing = some c' ∧
      c'.client = c.client ∧ c'.project = c.project := by
  obtain ⟨bu, cu, la, mi, tc, fl⟩ := s
  obtain rfl : cu = some c := hc
  cases la with
  | none => exact ⟨c, rfl, rfl, rfl⟩
  | some l =>
      by_cases hgap : 60 < now - l
      · refine ⟨{ c with start := now }, ?_, rfl, rfl⟩
        rw [TimingsRecorder.keep_alive_gap _ localDay now c l rfl rfl hgap]
        exact (TimingsRecorder.add_timing_fields _ localDay _).1
      · rw [TimingsRecorder.keep_alive_no_split _ localDay now
          (fun c' l' _ hl' => by injection hl' with e; omega)]
        exact ⟨c, rfl, rfl, rfl⟩

theorem TimingsRecorder.finalize_unwritten (s : TimingsRecorder)
    (localDay : Int → Int) (now : Int) :
    (s.finalize_current_timing localDay now).unwritten_timings =
      s.unwritten_timings ++ s.finalized now := by
  obtain ⟨bu, cu, la, mi, tc, fl⟩ := s
  cases cu with
  | none => simp [TimingsRecorder.finalize_current_timing, TimingsRecorder.finalized]
  | some c =>
      by_cases hpass : mi ≤ now - c.start ∧ 0 < now - c.start
      · rw [TimingsRecorder.finalize_some_pass _ localDay now c rfl hpass.1 hpass.2]
        simp [TimingsRecorder.finalized, hpass]
      · rw [TimingsRecorder.finalize_some_drop _ localDay now c rfl
          (by rcases not_and_or.mp hpass with h | h
              · exact Or.inl (show now - c.start < mi by omega)
              · exact Or.inr (show now - c.start ≤ 0 by omega))]
        simp only [TimingsRecorder.finalized]
        rw [if_neg (by simpa using hpass)]
        simp

/-! ### C3: `start_timing` semantics (amended) -/

/-- C3 (amended): `start_timing(client, project, now)` returns true iff
a new recording actually started.  An empty whitespace-trimmed client
or project stops any current session and returns false.  When already
Recording the same trimmed pair it returns false, and — beyond the
implicit `keep_alive_timing(now)` performed first, which updates the
last keep-alive and may split the session on a >60s gap — it changes no
recorder state.  Otherwise it finalizes the (possibly keep-alive
adjusted) current session into an interval ending at `now` through the
minimum-duration filter and installs a new `CurrentTiming` starting at
`now`, returning true. -/
theorem c3_start_timing (localDay : Int → Int) :
    (∀ (s : TimingsRecorder) (client project : String) (now : Int),
      strTrim client = "" ∨ strTrim project = "" →
        (s.start_timing localDay client project now).1 = false ∧
        (s.start_timing localDay client project now).2.1.current_timing = none) ∧
    (∀ (s : TimingsRecorder) (client project : String) (now : Int) (c : CurrentTiming),
      strTrim client ≠ "" → strTrim project ≠ "" →
      s.current_timing = some c → c.client = strTrim client → c.project = strTrim project →
        s.start_timing localDay client project now =
          (false, s.keep_alive_timing localDay now, [])) ∧
    (∀ (s : TimingsRecorder) (client project : String) (now : Int),
      strTrim client ≠ "" → strTrim project ≠ "" →
      (∀ c, s.current_timing = some c →
        ¬(c.client = strTrim client ∧ c.project = strTrim project)) →
        (s.start_timing localDay client project now).1 = true ∧
        (s.start_timing localDay client project now).2.1.current_timing =
          some { start := now, project := strTrim project, client := strTrim client } ∧
        (s.start_timing localDay client project now).2.1.unwritten_timings =
          (s.keep_alive_timing localDay now).unwritten_timings ++
            (s.keep_alive_timing localDay now).finalized now) := by
  refine ⟨?_, ?_, ?_⟩
  · intro s client project now h
    constructor
    · simp only [TimingsRecorder.start_timing]
      rw [if_pos h]
    · simp only [TimingsRecorder.start_timing]
      rw [if_pos h]
      exact TimingsRecorder.finalize_current_eq_none _ localDay now
  · intro s client project now c hcne hpne hc hcl hpr
    obtain ⟨c', hc', hcl', hpr'⟩ :=
      TimingsRecorder.keep_alive_current_pair s localDay now c hc
    simp only [TimingsRecorder.start_timing, hc']
    rw [if_neg (by simp [hcne, hpne])]
    rw [if_pos (show (c'.client = strTrim client && c'.project = strTrim project) = true by
      simp [hcl', hpr', hcl, hpr])]
  · intro s client project now hcne hpne hfresh
    simp only [TimingsRecorder.start_timing]
    rw [if_neg (by simp [hcne, hpne])]
    cases hcase : (s.keep_alive_timing localDay now).current_timing with
    | none =>
        refine ⟨rfl, rfl, ?_⟩
        exact TimingsRecorder.finalize_unwritten _ localDay now
    | some cur =>
        have hcond : (cur.client = strTrim client && cur.project = strTrim project) = false := by
          cases hc0 : s.current_timing with
          | none =>
              exact absurd (hcase.symm.trans
                (TimingsRecorder.keep_alive_current_none s localDay now hc0))
                (by simp)
          | some c0 =>
              obtain ⟨c', hc', hcl', hpr'⟩ :=
                TimingsRecorder.keep_alive_current_pair s localDay now c0 hc0
              obtain rfl : cur = c' := by
                have := hcase.symm.trans hc'
                injection this
              rcases not_and_or.mp (hfresh c0 hc0) with h | h
              · simp [hcl', h]
              · simp [hpr', h]
        rw [if_neg (by simp [hcond])]
        refine ⟨rfl, rfl, ?_⟩
        exact TimingsRecorder.finalize_unwritten _ localDay now

/-- Witness for `c3_start_timing`: starting ("A","P") at 5 on a fresh
recorder returns true and installs the session. -/
theorem c3_start_timing_witness :
    strTrim "A" ≠ "" ∧
    ((TimingsRecorder.new 3).start_timing utcDay "A" "P" 5).1 = true ∧
    ((TimingsRecorder.new 3).start_timing utcDay "A" "P" 5).2.1.current_timing =
      some { start := 5, project := strTrim "P", client := strTrim "A" } := by
  refine ⟨by decide, ?_⟩
  have h := (c3_start_timing utcDay).2.2 (TimingsRecorder.new 3) "A" "P" 5
    (by decide) (by decide) (fun c hc => by simp [TimingsRecorder.new] at hc)
  exact ⟨h.1, h.2.1⟩

/-- Counterexample to C3 as stated: a `start_timing` call that repeats
the currently recording pair returns false but does change recorder
state — the implicit keep-alive moves `last_keep_alive` from 40 to
100. -/
theorem c3_counterexample :
    (TimingsRecorder.start_timing
        { unwritten_timings := [], current_timing := some ⟨0, "P", "A"⟩,
          last_keep_alive := some 40, minimum_timing := 0, totals_cache := [],
          has_running_changed := false } utcDay "A" "P" 100).1 = false ∧
    (TimingsRecorder.start_timing
        { unwritten_timings := [], current_timing := some ⟨0, "P", "A"⟩,
          last_keep_alive := some 40, minimum_timing := 0, totals_cache := [],
          has_running_changed := false } utcDay "A" "P" 100).2.1.last_keep_alive = some 100 ∧
    ({ unwritten_timings := [], current_timing := some ⟨0, "P", "A"⟩,
       last_keep_alive := some 40, minimum_timing := 0, totals_cache := [],
       has_running_changed := false } : TimingsRecorder).last_keep_alive = some 40 := by
  decide

/-! ### C9: `running_changed` invocations (amended) -/

/-- C9 (amended): when a callback is registered, `stop_timing` invokes
`running_changed(false)` on every call — even when the recorder is
already Idle — and `start_timing` invokes `running_changed(false)` when
the trimmed client or project is empty (through its internal stop),
invokes `running_changed(true)` exactly when it returns true (including
a switch between two different pairs while Recording, which stays in
the Recording state), and invokes nothing on a same-pair no-op.  With
no callback registered nothing is invoked. -/
theorem c9_running_changed (localDay : Int → Int) :
    (∀ (s : TimingsRecorder) (now : Int),
      (s.stop_timing localDay now).2 =
        if s.has_running_changed then [false] else []) ∧
    (∀ (s : TimingsRecorder) (client project : String) (now : Int),
      (s.start_timing localDay client project now).2.2 =
        if strTrim client = "" ∨ strTrim project = "" then
          (if s.has_running_changed then [false] else [])
        else if (s.start_timing localDay client project now).1 then
          (if s.has_running_changed then [true] else [])
        else []) := by
  refine ⟨fun s now => rfl, ?_⟩
  intro s client project now
  by_cases hemp : strTrim client = "" ∨ strTrim project = ""
  · simp only [TimingsRecorder.start_timing]
    rw [if_pos hemp]
    simp only [TimingsRecorder.stop_timing]
    simp [(TimingsRecorder.keep_alive_fields s localDay now).2.1, hemp]
  · simp only [TimingsRecorder.start_timing]
    rw [if_neg hemp]
    cases hcase : (s.keep_alive_timing localDay now).current_timing with
    | none => simp [hemp]
    | some cur =>
        cases hb : (cur.client = strTrim client && cur.project = strTrim project) with
        | true => simp [hb, hemp]
        | false => simp [hb, hemp]

/-- Counterexample to C9 as stated: `stop_timing` on an already Idle
recorder with a registered callback still invokes the callback with
`false`, although no Idle-to-Recording transition occurs. -/
theorem c9_counterexample :
    (TimingsRecorder.new 0).set_running_changed_callback.current_timing = none ∧
    ((TimingsRecorder.new 0).set_running_changed_callback.stop_timing utcDay 0).2 = [false] ∧
    ((TimingsRecorder.new 0).set_running_changed_callback.stop_timing
        utcDay 0).1.current_timing = none := by
  decide

/-! ### C7: failed flush leaves state untouched -/

/-- C7: if the persistence collaborator's `insert_timings` fails,
`write_timings` propagates the error and the recorder state — the
unwritten buffer, the `CurrentTiming` and the totals cache — is exactly
the state before the call; the buffer is cleared only when
`insert_timings` succeeds, and any retried flush re-sends every
buffered interval (the handed list always extends the buffer). -/
theorem c7_write_timings_error_propagation :
    (∀ (s : TimingsRecorder) (insert : List Timing → Except String Unit)
        (now : Int) (e : String),
      insert (s.timings_to_write now) = .error e →
        s.write_timings insert now = (s, .error e)) ∧
    (∀ (s : TimingsRecorder) (insert : List Timing → Except String Unit) (now : Int),
      insert (s.timings_to_write now) = .ok () →
        s.write_timings insert now = ({ s with unwritten_timings := [] }, .ok ())) ∧
    (∀ (s : TimingsRecorder) (now : Int),
      ∃ rest, s.timings_to_write now = s.unwritten_timings ++ rest) := by
  refine ⟨?_, ?_, ?_⟩
  · intro s insert now e h
    unfold TimingsRecorder.write_timings
    rw [h]
  · intro s insert now h
    unfold TimingsRecorder.write_timings
    rw [h]
  · intro s now
    exact ⟨_, rfl⟩

/-- Witness for `c7_write_timings_error_propagation`: a collaborator
that always fails leaves a fresh recorder unchanged. -/
theorem c7_write_timings_error_propagation_witness :
    (fun (_ : List Timing) => (Except.error "db down" : Except String Unit))
        ((TimingsRecorder.new 3).timings_to_write 0) = .error "db down" ∧
    (TimingsRecorder.new 3).write_timings
        (fun _ => .error "db down") 0 = (TimingsRecorder.new 3, .error "db down") :=
  ⟨rfl, c7_write_timings_error_propagation.1 (TimingsRecorder.new 3)
    (fun _ => .error "db down") 0 "db down" rfl⟩

/-! ### Lemmas about the `timing` table upsert -/

theorem TimingDb.filter_eq_nil {db : TimingDb} {k : String × String × Int}
    (h : k ∉ db.map Prod.fst) : db.filter (fun r => r.1 = k) = [] := by
  induction db with
  | nil => rfl
  | cons r rest ih =>
      simp only [List.map_cons, List.mem_cons] at h
      push_neg at h
      have h1 : ¬ (r.1 = k) := fun hh => h.1 hh.symm
      simp [List.filter, h1, ih h.2]

theorem TimingDb.mem_keys_upsertRow {db : TimingDb} {k a : String × String × Int} {e : Int} :
    a ∈ (db.upsertRow k e).map Prod.fst ↔ a ∈ db.map Prod.fst ∨ a = k := by
  induction db with
  | nil => simp [TimingDb.upsertRow]
  | cons r rest ih =>
      obtain ⟨k', e'⟩ := r
      by_cases hk : k' = k
      · subst hk
        simp [TimingDb.upsertRow]
        tauto
      · simp [TimingDb.upsertRow, hk, ih]
        tauto

theorem TimingDb.upsertRow_keysNodup {db : TimingDb} (h : db.keysNodup)
    (k : String × String × Int) (e : Int) : (db.upsertRow k e).keysNodup := by
  induction db with
  | nil => simp [TimingDb.upsertRow, TimingDb.keysNodup]
  | cons r rest ih =>
      obtain ⟨k', e'⟩ := r
      simp only [TimingDb.keysNodup, List.map_cons, List.nodup_cons] at h
      by_cases hk : k' = k
      · subst hk
        simpa [TimingDb.upsertRow, TimingDb.keysNodup] using h
      · have ih' := ih h.2
        simp only [TimingDb.upsertRow, if_neg hk, TimingDb.keysNodup, List.map_cons,
          List.nodup_cons]
        refine ⟨?_, ih'⟩
        rw [TimingDb.mem_keys_upsertRow]
        push_neg
        exact ⟨h.1, hk⟩

theorem TimingDb.insert_timings_keysNodup {db : TimingDb} (h : db.keysNodup)
    (ts : List Timing) : (db.insert_timings ts).keysNodup := by
  induction ts generalizing db with
  | nil => exact h
  | cons t ts ih => exact ih (TimingDb.upsertRow_keysNodup h _ _)

theorem TimingDb.filter_upsertRow_self {db : TimingDb} (h : db.keysNodup)
    (k : String × String × Int) (e : Int) :
    (db.upsertRow k e).filter (fun r => r.1 = k) = [(k, e)] := by
  induction db with
  | nil => simp [TimingDb.upsertRow]
  | cons r rest ih =>
      obtain ⟨k', e'⟩ := r
      simp only [TimingDb.keysNodup, List.map_cons, List.nodup_cons] at h
      by_cases hk : k' = k
      · subst hk
        simp only [TimingDb.upsertRow, if_pos rfl]
        have : rest.filter (fun r => r.1 = k') = [] := TimingDb.filter_eq_nil h.1
        simp [List.filter, this]
      · simp only [TimingDb.upsertRow, if_neg hk]
        have := ih h.2
        simp [List.filter, hk, this]

/-! ### C4: speculative flush of the open session, upsert dedup -/

/-- C4: `write_timings(now)` hands the buffer plus — when a session is
open and `now - start` reaches the minimum — a synthetic interval
`[start, now]` for it, leaving the in-memory `CurrentTiming` unchanged;
and because the persistence upsert is keyed by (client, project, start),
two flushes of the same unchanged open session leave exactly one row
for that session, whose end is the later flush instant. -/
theorem c4_write_timings_open_session :
    (∀ (s : TimingsRecorder) (now : Int) (c : CurrentTiming),
      s.current_timing = some c → s.minimum_timing ≤ now - c.start →
        s.timings_to_write now = s.unwritten_timings ++
          [{ start := c.start, «end» := now, project := c.project, client := c.client }]) ∧
    (∀ (s : TimingsRecorder) (insert : List Timing → Except String Unit) (now : Int),
      insert (s.timings_to_write now) = .ok () →
        (s.write_timings insert now).1 = { s with unwritten_timings := [] } ∧
        (s.write_timings insert now).1.current_timing = s.current_timing) ∧
    (∀ (db : TimingDb) (s : TimingsRecorder) (c : CurrentTiming) (t1 t2 : Int),
      db.keysNodup → s.current_timing = some c →
      s.minimum_timing ≤ t1 - c.start → s.minimum_timing ≤ t2 - c.start →
        ((db.insert_timings (s.timings_to_write t1)).insert_timings
            (TimingsRecorder.timings_to_write { s with unwritten_timings := [] } t2)).filter
          (fun r => r.1 = (c.client, c.project, c.start)) =
          [((c.client, c.project, c.start), t2)]) := by
  refine ⟨?_, ?_, ?_⟩
  · intro s now c hc hmin
    unfold TimingsRecorder.timings_to_write
    rw [hc]
    simp [hmin]
  · intro s insert now h
    unfold TimingsRecorder.write_timings
    rw [h]
    exact ⟨rfl, rfl⟩
  · intro db s c t1 t2 hnd hc hmin1 hmin2
    have h2 : TimingsRecorder.timings_to_write { s with unwritten_timings := [] } t2 =
        [{ start := c.start, «end» := t2, project := c.project, client := c.client }] := by
      unfold TimingsRecorder.timings_to_write
      rw [show ({ s with unwritten_timings := [] } : TimingsRecorder).current_timing =
        some c from hc]
      simp [hmin2]
    rw [h2]
    exact TimingDb.filter_upsertRow_self
      (TimingDb.insert_timings_keysNodup hnd _) (c.client, c.project, c.start) t2

/-- Witness for `c4_write_timings_open_session`: spec scenario 4 — a
session started at 0, flushed at 10 and again at 15 with an empty
database, yields a single row for key ("A","P",0) ending at 15. -/
theorem c4_write_timings_open_session_witness :
    TimingDb.keysNodup [] ∧
    ((TimingDb.insert_timings []
        (TimingsRecorder.timings_to_write
          { unwritten_timings := [], current_timing := some ⟨0, "P", "A"⟩,
            last_keep_alive := some 0, minimum_timing := 0, totals_cache := [],
            has_running_changed := false } 10)).insert_timings
        (TimingsRecorder.timings_to_write
          { unwritten_timings := [],
            current_timing := some (⟨0, "P", "A"⟩ : CurrentTiming),
            last_keep_alive := some 0, minimum_timing := 0, totals_cache := [],
            has_running_changed := false } 15)).filter
      (fun r => r.1 = ("A", "P", (0 : Int))) = [(("A", "P", (0 : Int)), 15)] := by
  refine ⟨by simp [TimingDb.keysNodup], ?_⟩
  exact c4_write_timings_open_session.2.2 []
    { unwritten_timings := [], current_timing := some ⟨0, "P", "A"⟩,
      last_keep_alive := some 0, minimum_timing := 0, totals_cache := [],
      has_running_changed := false }
    ⟨0, "P", "A"⟩ 10 15 (by simp [TimingDb.keysNodup]) rfl (by decide) (by decide)

/-! ### Buffer invariant machinery for C2 -/

theorem TimingsRecorder.bufferOk_add (s : TimingsRecorder) (localDay : Int → Int)
    (t : Timing) (h : s.BufferOk) : (s.add_timing localDay t).BufferOk := by
  simp only [TimingsRecorder.add_timing]
  split_ifs with h1 h2
  · exact h
  · intro t' ht'
    simp only [List.mem_append, List.mem_singleton] at ht'
    rcases ht' with ht' | rfl
    · exact h t' ht'
    · exact ⟨show s.minimum_timing ≤ t'.«end» - t'.start by omega,
        show (0 : Int) < t'.«end» - t'.start by omega⟩
  · exact h

theorem TimingsRecorder.bufferOk_keep_alive (s : TimingsRecorder) (localDay : Int → Int)
    (now : Int) (h : s.BufferOk) : (s.keep_alive_timing localDay now).BufferOk := by
  obtain ⟨bu, cu, la, mi, tc, fl⟩ := s
  cases cu with
  | none => cases la <;> exact h
  | some c =>
      cases la with
      | none => exact h
      | some l =>
          simp only [TimingsRecorder.keep_alive_timing]
          split
          · exact TimingsRecorder.bufferOk_add _ localDay _ h
          · exact h

theorem TimingsRecorder.bufferOk_finalize (s : TimingsRecorder) (localDay : Int → Int)
    (now : Int) (h : s.BufferOk) : (s.finalize_current_timing localDay now).BufferOk := by
  obtain ⟨bu, cu, la, mi, tc, fl⟩ := s
  cases cu with
  | none => exact h
  | some c => exact TimingsRecorder.bufferOk_add _ localDay _ h

theorem TimingsRecorder.bufferOk_stop (s : TimingsRecorder) (localDay : Int → Int)
    (now : Int) (h : s.BufferOk) : (s.stop_timing localDay now).1.BufferOk :=
  TimingsRecorder.bufferOk_finalize _ localDay now
    (TimingsRecorder.bufferOk_keep_alive s localDay now h)

theorem TimingsRecorder.bufferOk_start (s : TimingsRecorder) (localDay : Int → Int)
    (client project : String) (now : Int) (h : s.BufferOk) :
    (s.start_timing localDay client project now).2.1.BufferOk := by
  simp only [TimingsRecorder.start_timing]
  split
  · exact TimingsRecorder.bufferOk_stop _ localDay now
      (TimingsRecorder.bufferOk_keep_alive s localDay now h)
  · split
    · exact TimingsRecorder.bufferOk_keep_alive s localDay now h
    · exact TimingsRecorder.bufferOk_finalize _ localDay now
        (TimingsRecorder.bufferOk_keep_alive s localDay now h)

theorem TimingsRecorder.bufferOk_empty (s : TimingsRecorder) :
    TimingsRecorder.BufferOk { s with unwritten_timings := [] } :=
  fun t ht => absurd ht (List.not_mem_nil t)

theorem TimingsRecorder.bufferOk_write (s : TimingsRecorder)
    (insert : List Timing → Except String Unit) (now : Int) (h : s.BufferOk) :
    (s.write_timings insert now).1.BufferOk := by
  unfold TimingsRecorder.write_timings
  cases hres : insert (s.timings_to_write now) with
  | error e => exact h
  | ok u => exact TimingsRecorder.bufferOk_empty s

theorem TimingsRecorder.bufferOk_get_totals (s : TimingsRecorder) (localDay : Int → Int)
    (client project : String) (now : Int) (conn : Conn) (h : s.BufferOk) :
    (s.get_totals localDay client project now conn).1.BufferOk := by
  simp only [TimingsRecorder.get_totals]
  split_ifs with hcache
  · split
    · exact h
    · exact h
  · split
    next s1 e heq =>
      have hs1 : s1.BufferOk := by
        have he : s1 = (s.write_timings conn.insert_timings now).1 := by rw [heq]
        rw [he]
        exact TimingsRecorder.bufferOk_write s conn.insert_timings now h
      exact hs1
    next s1 u heq =>
      have hs1 : s1.BufferOk := by
        have he : s1 = (s.write_timings conn.insert_timings now).1 := by rw [heq]
        rw [he]
        exact TimingsRecorder.bufferOk_write s conn.insert_timings now h
      split
      · exact hs1
      · exact hs1

theorem TimingsRecorder.bufferOk_applyOp (s : TimingsRecorder) (localDay : Int → Int)
    (op : RecorderOp) (h : s.BufferOk) : (s.applyOp localDay op).BufferOk := by
  cases op with
  | startT client project now => exact TimingsRecorder.bufferOk_start s localDay _ _ now h
  | stopT now => exact TimingsRecorder.bufferOk_stop s localDay now h
  | keepAlive now => exact TimingsRecorder.bufferOk_keep_alive s localDay now h
  | write insert now => exact TimingsRecorder.bufferOk_write s insert now h
  | getTotals conn client project now =>
      exact TimingsRecorder.bufferOk_get_totals s localDay _ _ now conn h
  | setCallback => exact h

theorem TimingsRecorder.bufferOk_run (localDay : Int → Int) (ops : List RecorderOp) :
    ∀ (s : TimingsRecorder), s.BufferOk → (s.run localDay ops).BufferOk := by
  induction ops with
  | nil => exact fun s h => h
  | cons op ops ih =>
      intro s h
      exact ih _ (TimingsRecorder.bufferOk_applyOp s localDay op h)

/-! ### C2: the minimum-duration filter (amended) -/

/-- C2 (amended): a timing whose duration is below `minimum_timing` or
not positive leaves the recorder — buffer and totals cache — exactly
unchanged by `add_timing`; in every state reachable from a fresh
recorder by any sequence of operations, every buffered interval has
duration at least `minimum_timing` and positive; and every timing
handed to the persistence collaborator by `write_timings` is either a
buffered interval or the synthetic open-session interval, whose
duration is at least `minimum_timing` but — unlike buffered intervals —
may be zero when `minimum_timing` is zero. -/
theorem c2_minimum_filter (localDay : Int → Int) :
    (∀ (s : TimingsRecorder) (t : Timing),
      t.duration < s.minimum_timing ∨ t.duration ≤ 0 →
        s.add_timing localDay t = s) ∧
    (∀ (m : Int) (ops : List RecorderOp),
      ((TimingsRecorder.new m).run localDay ops).BufferOk) ∧
    (∀ (s : TimingsRecorder) (now : Int) (t : Timing),
      t ∈ s.timings_to_write now →
        t ∈ s.unwritten_timings ∨
          ∃ c, s.current_timing = some c ∧
            t = { start := c.start, «end» := now, project := c.project, client := c.client } ∧
            s.minimum_timing ≤ t.duration) := by
  refine ⟨?_, ?_, ?_⟩
  · intro s t h
    exact TimingsRecorder.add_timing_drop s localDay t h
  · intro m ops
    exact TimingsRecorder.bufferOk_run localDay ops (TimingsRecorder.new m)
      (fun t ht => absurd ht (List.not_mem_nil t))
  · intro s now t ht
    unfold TimingsRecorder.timings_to_write at ht
    rw [List.mem_append] at ht
    rcases ht with ht | ht
    · exact Or.inl ht
    · right
      cases hc : s.current_timing with
      | none => rw [hc] at ht; simp at ht
      | some c =>
          rw [hc] at ht
          by_cases hmin : s.minimum_timing ≤ now - c.start
          · simp only [hmin, if_true] at ht
            simp only [List.mem_singleton] at ht
            exact ⟨c, rfl, ht, by rw [ht]; unfold Timing.duration; simpa using hmin⟩
          · simp [hmin] at ht

/-- Witness for `c2_minimum_filter`: a zero-duration timing is dropped
with the recorder unchanged. -/
theorem c2_minimum_filter_witness :
    Timing.duration { start := 5, «end» := 5, project := "P", client := "A" } ≤ 0 ∧
    TimingsRecorder.add_timing (TimingsRecorder.new 3) utcDay
        { start := 5, «end» := 5, project := "P", client := "A" } = TimingsRecorder.new 3 := by
  refine ⟨by decide, ?_⟩
  exact (c2_minimum_filter utcDay).1 (TimingsRecorder.new 3) _ (Or.inr (by decide))

/-- Counterexample to C2 as stated: with `minimum_timing = 0`, starting
("A","P") at 0 and flushing at 0 hands the zero-duration synthetic
interval [0,0] to the persistence collaborator (`write_timings` passes
exactly `timings_to_write` to `insert_timings`). -/
theorem c2_counterexample :
    TimingsRecorder.timings_to_write
        (((TimingsRecorder.new 0).start_timing utcDay "A" "P" 0).2.1) 0 =
      [{ start := 0, «end» := 0, project := "P", client := "A" }] ∧
    Timing.duration { start := 0, «end» := 0, project := "P", client := "A" } = 0 := by
  decide

/-! ### C6: `get_totals` cold fill and live extension (amended) -/

/-- C6 (amended): on a cache miss `get_totals` performs `write_timings`
first (propagating its error) and cold-fills the cache from the
persistence collaborator over exactly the eight-week window
`[now - 8 weeks, now]`, passing no live session to the cache — so on
the cold path the returned totals are those of the freshly installed
map, not live-extended (the flush already wrote the open session).
When the pair has a warm cache entry and matches the currently open
session, the returned totals are the cache-derived totals extended by
the live elapsed duration `now - start`, added into `today`,
`this_week` and `eight_weeks` and never into `last_week`. -/
theorem c6_get_totals (localDay : Int → Int) :
    (∀ (s : TimingsRecorder) (conn : Conn) (client project : String) (now : Int) (e : String),
      s.totals_cache.has_cached_totals client project = false →
      conn.insert_timings (s.timings_to_write now) = .error e →
        s.get_totals localDay client project now conn = (s, .error e)) ∧
    (∀ (s : TimingsRecorder) (conn : Conn) (client project : String) (now : Int),
      s.totals_cache.has_cached_totals client project = false →
      conn.insert_timings (s.timings_to_write now) = .ok () →
        s.get_totals localDay client project now conn =
          match conn.get_timings_daily_totals client project (now - weeksSecs 8) now with
          | .error e => ({ s with unwritten_timings := [] }, .error e)
          | .ok rows =>
              ({ s with unwritten_timings := []
                        totals_cache := TotalsCache.insert_entry s.totals_cache client project
                          (DailyTotals.from_rows rows) },
               .ok ((DailyTotals.from_rows rows).to_totals localDay now))) ∧
    (∀ (s : TimingsRecorder) (conn : Conn) (client project : String) (now : Int)
        (dt : DailyTotals) (c : CurrentTiming),
      TotalsCache.find? s.totals_cache client project = some dt →
      s.current_timing = some c → c.client = client → c.project = project →
        s.get_totals localDay client project now conn =
          (s, .ok ((dt.to_totals localDay now).with_current_timing c.start now))) ∧
    (∀ (t : Totals) (start now : Int),
      t.with_current_timing start now =
        { today := t.today + (now - start), this_week := t.this_week + (now - start),
          last_week := t.last_week, eight_weeks := t.eight_weeks + (now - start) }) := by
  refine ⟨?_, ?_, ?_, fun t start now => rfl⟩
  · intro s conn client project now e hcache hres
    simp only [TimingsRecorder.get_totals]
    rw [if_neg (by simp [hcache])]
    have hw : s.write_timings conn.insert_timings now = (s, .error e) := by
      unfold TimingsRecorder.write_timings
      rw [hres]
    rw [hw]
  · intro s conn client project now hcache hres
    simp only [TimingsRecorder.get_totals]
    rw [if_neg (by simp [hcache])]
    have hw : s.write_timings conn.insert_timings now =
        ({ s with unwritten_timings := [] }, .ok ()) := by
      unfold TimingsRecorder.write_timings
      rw [hres]
    rw [hw]
    have hfind : TotalsCache.find? s.totals_cache client project = none := by
      unfold TotalsCache.has_cached_totals at hcache
      cases hf : TotalsCache.find? s.totals_cache client project with
      | none => rfl
      | some dt => rw [hf] at hcache; simp at hcache
    simp only [TotalsCache.get_totals, hfind]
    cases hq : conn.get_timings_daily_totals client project (now - weeksSecs 8) now with
    | error e => simp [hq]
    | ok rows => simp [hq]
  · intro s conn client project now dt c hfind hc hcl hpr
    simp only [TimingsRecorder.get_totals]
    rw [if_pos (by simp [TotalsCache.has_cached_totals, hfind])]
    simp [TotalsCache.get_totals, hfind, hc, hcl, hpr]
    rw [← hc]

/-- Witness for `c6_get_totals`: a warm cache entry for ("A","P") with
an empty map and a matching open session started at 0, queried at 10,
returns the cached totals live-extended by 10. -/
theorem c6_get_totals_witness :
    TotalsCache.find? [(("A", "P"), [])] "A" "P" = some [] ∧
    (TimingsRecorder.get_totals
        { unwritten_timings := [], current_timing := some ⟨0, "P", "A"⟩,
          last_keep_alive := some 0, minimum_timing := 0,
          totals_cache := [(("A", "P"), [])], has_running_changed := false }
        utcDay "A" "P" 10
        { insert_timings := fun _ => .ok (),
          get_timings_daily_totals := fun _ _ _ _ => .ok [] }) =
      ({ unwritten_timings := [], current_timing := some ⟨0, "P", "A"⟩,
         last_keep_alive := some 0, minimum_timing := 0,
         totals_cache := [(("A", "P"), [])], has_running_changed := false },
       .ok ((DailyTotals.to_totals [] utcDay 10).with_current_timing 0 10)) := by
  refine ⟨by decide, ?_⟩
  exact (c6_get_totals utcDay).2.2.1
    { unwritten_timings := [], current_timing := some ⟨0, "P", "A"⟩,
      last_keep_alive := some 0, minimum_timing := 0,
      totals_cache := [(("A", "P"), [])], has_running_changed := false }
    { insert_timings := fun _ => .ok (),
      get_timings_daily_totals := fun _ _ _ _ => .ok [] }
    "A" "P" 10 [] ⟨0, "P", "A"⟩ (by decide) rfl rfl rfl

/-- Counterexample to C6 as stated: a cold-path `get_totals` whose pair
matches the currently open session is *not* extended by the live
elapsed duration.  Session open since 0, `now = 100`, the cold fill
returns a 100-second day bucket (the flush just wrote [0,100]): the
call returns `today = 100`, whereas cache-derived totals extended by
the live elapsed duration would give `100 + (100 - 0) = 200`. -/
theorem c6_counterexample :
    (TimingsRecorder.get_totals
        { unwritten_timings := [], current_timing := some ⟨0, "P", "A"⟩,
          last_keep_alive := some 0, minimum_timing := 0, totals_cache := [],
          has_running_changed := false } utcDay "A" "P" 100
        { insert_timings := fun _ => .ok (),
          get_timings_daily_totals := fun _ _ _ _ => .ok [(0, 100)] }).2 =
      .ok { today := 100, this_week := 100, last_week := 0, eight_weeks := 100 } ∧
    ({ unwritten_timings := [], current_timing := some ⟨0, "P", "A"⟩,
       last_keep_alive := some 0, minimum_timing := 0, totals_cache := [],
       has_running_changed := false } : TimingsRecorder).current_timing =
      some ⟨0, "P", "A"⟩ ∧
    (100 : Int) ≠ 100 + (100 - 0) := by
  refine ⟨by rfl, rfl, by decide⟩

/-! ### Nonnegativity lemmas for C8 -/

theorem DailyTotals.to_totals_nonneg (m : DailyTotals) (localDay : Int → Int)
    (now : Int) (h : ∀ p ∈ m, 0 ≤ p.2) :
    0 ≤ (m.to_totals localDay now).today ∧
    0 ≤ (m.to_totals localDay now).this_week ∧
    0 ≤ (m.to_totals localDay now).last_week ∧
    0 ≤ (m.to_totals localDay now).eight_weeks :=
  ⟨DailyTotals.getD_nonneg h _, DailyTotals.sumDays_nonneg h _ _,
    DailyTotals.sumDays_nonneg h _ _, DailyTotals.sumDays_nonneg h _ _⟩

theorem Totals.with_current_timing_nonneg (t : Totals) (start now : Int)
    (h1 : 0 ≤ t.today) (h2 : 0 ≤ t.this_week) (h3 : 0 ≤ t.last_week)
    (h4 : 0 ≤ t.eight_weeks) (h5 : start ≤ now) :
    0 ≤ (t.with_current_timing start now).today ∧
    0 ≤ (t.with_current_timing start now).this_week ∧
    0 ≤ (t.with_current_timing start now).last_week ∧
    0 ≤ (t.with_current_timing start now).eight_weeks := by
  refine ⟨?_, ?_, ?_, ?_⟩ <;> simp only [Totals.with_current_timing] <;> omega

theorem TimingsRecorder.get_totals_nonneg (s : TimingsRecorder) (localDay : Int → Int)
    (conn : Conn) (client project : String) (now : Int) (s' : TimingsRecorder) (t : Totals)
    (hcachep : ∀ e ∈ s.totals_cache, ∀ p ∈ e.2, 0 ≤ p.2)
    (hconn : ∀ (c p : String) (lo hi : Int) (rows : List (Int × Int)),
      conn.get_timings_daily_totals c p lo hi = .ok rows → ∀ r ∈ rows, 0 ≤ r.2)
    (hstart : ∀ c, s.current_timing = some c → c.start ≤ now)
    (hres : s.get_totals localDay client project now conn = (s', .ok t)) :
    t.Nonneg := by
  by_cases hcache : s.totals_cache.has_cached_totals client project = true
  · obtain ⟨dt, hfind⟩ : ∃ dt, TotalsCache.find? s.totals_cache client project = some dt := by
      unfold TotalsCache.has_cached_totals at hcache
      cases hf : TotalsCache.find? s.totals_cache client project with
      | none => rw [hf] at hcache; simp at hcache
      | some dt => exact ⟨dt, rfl⟩
    have hdtn : ∀ p ∈ dt, 0 ≤ p.2 := hcachep _ (TotalsCache.find?_mem hfind)
    have htot := DailyTotals.to_totals_nonneg dt localDay now hdtn
    simp only [TimingsRecorder.get_totals, if_pos hcache, TotalsCache.get_totals,
      hfind] at hres
    cases hcur : s.current_timing with
    | none =>
        rw [hcur] at hres
        simp only [Option.none_bind] at hres
        injection hres with h1 h2
        injection h2 with h3
        rw [← h3]
        exact htot
    | some c =>
        rw [hcur] at hres
        by_cases hmatch : c.client = client ∧ c.project = project
        · simp only [Option.some_bind, if_pos hmatch] at hres
          injection hres with h1 h2
          injection h2 with h3
          rw [← h3]
          exact Totals.with_current_timing_nonneg _ _ _ htot.1 htot.2.1 htot.2.2.1
            htot.2.2.2 (hstart c hcur)
        · simp only [Option.some_bind, if_neg hmatch] at hres
          injection hres with h1 h2
          injection h2 with h3
          rw [← h3]
          exact htot
  · simp only [TimingsRecorder.get_totals, if_neg hcache] at hres
    cases hins : conn.insert_timings (s.timings_to_write now) with
    | error e =>
        have hw : s.write_timings conn.insert_timings now = (s, .error e) := by
          unfold TimingsRecorder.write_timings
          rw [hins]
        rw [hw] at hres
        simp at hres
    | ok u =>
        cases u
        have hw : s.write_timings conn.insert_timings now =
            ({ s with unwritten_timings := [] }, .ok ()) := by
          unfold TimingsRecorder.write_timings
          rw [hins]
        rw [hw] at hres
        have hfind : TotalsCache.find? s.totals_cache client project = none := by
          unfold TotalsCache.has_cached_totals at hcache
          cases hf : TotalsCache.find? s.totals_cache client project with
          | none => rfl
          | some dt => rw [hf] at hcache; simp at hcache
        simp only [TotalsCache.get_totals, hfind] at hres
        cases hq : conn.get_timings_daily_totals client project (now - weeksSecs 8) now with
        | error e => rw [hq] at hres; simp at hres
        | ok rows =>
            rw [hq] at hres
            simp only [] at hres
            have hrows : ∀ r ∈ rows, 0 ≤ r.2 := hconn _ _ _ _ rows hq
            have htot := DailyTotals.to_totals_nonneg (DailyTotals.from_rows rows)
              localDay now (DailyTotals.from_rows_nonneg hrows)
            injection hres with h1 h2
            injection h2 with h3
            rw [← h3]
            exact htot

/-! ### C8: non-negative totals (amended) -/

/-- C8 (amended): `to_totals` returns non-negative fields whenever all
cached day buckets are non-negative; `with_current_timing` preserves
non-negativity provided the open session's start is not after `now`;
and `get_totals` returns non-negative fields whenever the cache's
buckets and the persistence collaborator's aggregates are non-negative
and the open session's start is not after `now`.  (Without the
`start ≤ now` proviso the fields can go negative — see the
counterexample.) -/
theorem c8_totals_nonneg (localDay : Int → Int) :
    (∀ (m : DailyTotals) (now : Int), (∀ p ∈ m, 0 ≤ p.2) →
      Totals.Nonneg (m.to_totals localDay now)) ∧
    (∀ (t : Totals) (start now : Int),
      t.Nonneg → start ≤ now → Totals.Nonneg (t.with_current_timing start now)) ∧
    (∀ (s : TimingsRecorder) (conn : Conn) (client project : String) (now : Int)
        (s' : TimingsRecorder) (t : Totals),
      (∀ e ∈ s.totals_cache, ∀ p ∈ e.2, 0 ≤ p.2) →
      (∀ (c p : String) (lo hi : Int) (rows : List (Int × Int)),
        conn.get_timings_daily_totals c p lo hi = .ok rows → ∀ r ∈ rows, 0 ≤ r.2) →
      (∀ c, s.current_timing = some c → c.start ≤ now) →
      s.get_totals localDay client project now conn = (s', .ok t) →
      t.Nonneg) := by
  refine ⟨?_, ?_, ?_⟩
  · intro m now h
    exact DailyTotals.to_totals_nonneg m localDay now h
  · intro t start now ht h5
    exact Totals.with_current_timing_nonneg t start now ht.1 ht.2.1 ht.2.2.1 ht.2.2.2 h5
  · intro s conn client project now s' t h1 h2 h3 h4
    exact TimingsRecorder.get_totals_nonneg s localDay conn client project now s' t h1 h2 h3 h4

/-- Witness for `c8_totals_nonneg`: concrete non-negative buckets give
non-negative totals. -/
theorem c8_totals_nonneg_witness :
    (∀ p ∈ ([(0, 5)] : DailyTotals), 0 ≤ p.2) ∧
    Totals.Nonneg (DailyTotals.to_totals [(0, 5)] utcDay 3) := by
  refine ⟨by decide, ?_⟩
  exact (c8_totals_nonneg utcDay).1 [(0, 5)] 3 (by decide)

/-- Counterexample to C8 as stated: a reachable recorder state and a
`now` for which `get_totals` returns negative fields.  A cold
`get_totals` at 0 installs an empty cache entry for ("A","P"); a
session is then started at 100; querying again with `now = 0` (a `now`
earlier than the session start) returns `today = -100 < 0`. -/
theorem c8_counterexample :
    (TimingsRecorder.get_totals
        ((TimingsRecorder.start_timing
            ((TimingsRecorder.get_totals (TimingsRecorder.new 0) utcDay "A" "P" 0
                { insert_timings := fun _ => .ok (),
                  get_timings_daily_totals := fun _ _ _ _ => .ok [] }).1)
            utcDay "A" "P" 100).2.1)
        utcDay "A" "P" 0
        { insert_timings := fun _ => .ok (),
          get_timings_daily_totals := fun _ _ _ _ => .ok [] }).2 =
      .ok { today := -100, this_week := -100, last_week := 0, eight_weeks := -100 } ∧
    (-100 : Int) < 0 := by
  refine ⟨by rfl, by decide⟩
